import Mathlib

/-!
# Verification of the Valhalla usage-reconciliation and quota-enforcement core

Shallow embedding of the parts of the repository referenced by the claims:

* `scripts/usage_sync.py` — the background polling loop: per-link delta
  computation against the stored baseline (`last_used_traffic`), the ledger
  update (`add_usage`), and the user/agent level enable/disable state machine
  (`try_disable_if_user_exceeded`, `try_enable_if_user_ok`,
  `try_disable_agent_if_exceeded`, `try_enable_agent_if_ok`).
* `app.py` — the read-time subscription gate (`unified_links`, `get_agent`),
  link aggregation post-processing (`filter_dedupe`) and config-name
  canonicalization (`canonicalize_name`).
* `bot.py` — the ledger credit removal performed by `reset_used` and
  `delete_local_user`.

Modelling conventions: MySQL `BIGINT` counters are `Int`; Python `str` is
`List Char` (a sequence of Unicode code points); database rows are structures
holding exactly the columns the modelled code reads or writes (pure audit
columns such as `disabled_pushed_at` and `created_at` are not modelled);
remote HTTP calls are events recorded in an output list, with each call's
success or failure supplied by an oracle function, since the code only logs
those outcomes.
-/

namespace Valhalla

/-- The clamp constant `18446744073709551615 = 2^64 - 1` appearing literally in
the `LEAST(... , 18446744073709551615)` updates of `add_usage`.  The columns
are signed BIGINT, so this clamp can never engage (see `I64MAX`). -/
def U64MAX : Int := 18446744073709551615

/-- The maximum of a signed BIGINT column, `2^63 - 1`.  `used_bytes` and
`total_used_bytes` are declared `BIGINT NOT NULL` (bot.py lines 218 and 277),
so a stored value is at most this, and MySQL raises error 1690 ("BIGINT value
is out of range") if `used_bytes + delta` exceeds it during evaluation. -/
def I64MAX : Int := 9223372036854775807

/-- The minimum of a signed BIGINT column, `-2^63`. -/
def I64MIN : Int := -9223372036854775808

/-- A row of `local_users` (the columns read by the modelled code):
`plan_limit_bytes`, `used_bytes` (signed BIGINT), `disabled_pushed`. -/
structure LocalUser where
  plan_limit_bytes : Int
  used_bytes : Int
  disabled_pushed : Bool
deriving Repr, DecidableEq

/-- A row of `agents` (the columns read by the modelled code).
`expire_at` is a nullable DATETIME, modelled as an optional timestamp. -/
structure Agent where
  plan_limit_bytes : Int
  total_used_bytes : Int
  expire_at : Option Int
  active : Bool
  disabled_pushed : Bool
deriving Repr, DecidableEq

/-- One remote account a disable/enable call is addressed to: a row of
`local_user_panel_links` joined with `panels`, reduced to the identifying
fields (panel id and remote username). -/
structure PanelRef where
  panel_id : Nat
  remote_username : List Char
deriving Repr, DecidableEq

/-- The user-level over-quota predicate `limit > 0 and used >= limit`
(usage_sync.py line 236, app.py line 611). -/
def userOverQuota (u : LocalUser) : Bool :=
  decide (0 < u.plan_limit_bytes) && decide (u.plan_limit_bytes ≤ u.used_bytes)

/-- The agent-level over-quota predicate: `over_limit = (tot >= limit_b)` and
only evaluated when `limit_b > 0` (usage_sync.py lines 380-383 and 424-427,
app.py lines 590-593). -/
def agentOverLimit (a : Agent) (totalUsed : Int) : Bool :=
  decide (0 < a.plan_limit_bytes) && decide (a.plan_limit_bytes ≤ totalUsed)

/-- The agent expiry predicate `expire_at <= now`, false when `expire_at` is
NULL (usage_sync.py lines 371-378, app.py line 589). -/
def agentExpired (a : Agent) (now : Int) : Bool :=
  match a.expire_at with
  | some e => decide (e ≤ now)
  | none => false

/-- `add_usage` (usage_sync.py lines 141-160): returns immediately when
`delta <= 0`; otherwise runs
`UPDATE local_users SET used_bytes = LEAST(used_bytes + delta, 18446744073709551615)`
and the same increment on the owning agent's `total_used_bytes`.  The columns
are signed BIGINT: MySQL evaluates `used_bytes + delta` in signed arithmetic
and raises error 1690 when the sum leaves the signed range, before the
`LEAST` applies — modelled as `none`.  Because the transaction only commits
on clean exit (`CurCtx.__exit__`), an error leaves both rows unchanged.
Within range, `LEAST(sum, 2^64-1)` is the identity since `sum ≤ 2^63-1`. -/
def add_usage (lu : LocalUser) (ag : Agent) (delta : Int) :
    Option (LocalUser × Agent) :=
  if delta ≤ 0 then some (lu, ag)
  else
    let su := lu.used_bytes + delta
    let sa := ag.total_used_bytes + delta
    if su < I64MIN ∨ I64MAX < su ∨ sa < I64MIN ∨ I64MAX < sa then none
    else
      some ({ lu with used_bytes := min su U64MAX },
            { ag with total_used_bytes := min sa U64MAX })

/-- The ledger portion of one iteration of `loop` (usage_sync.py lines
469-482) for one link whose fetch succeeded, acting on the link's stored
baseline and the addressed user and agent rows.  Returns the new baseline and
the new rows, or `none` when the ledger update raised the out-of-range error
(in which case `update_last` never runs and nothing is committed):
* `used < last` — counter reset: only `update_last(link, used)` runs;
* otherwise `delta = used - last`; when `delta > 0`, `add_usage` then
  `update_last`; when `delta = 0`, nothing runs. -/
def applyUsage (last : Int) (lu : LocalUser) (ag : Agent) (used : Int) :
    Option (Int × LocalUser × Agent) :=
  if used < last then some (used, lu, ag)
  else
    let delta := used - last
    if 0 < delta then
      match add_usage lu ag delta with
      | none => none
      | some p => some (used, p.1, p.2)
    else some (last, lu, ag)

/-- `applyUsage` iterated over the reported values of N consecutive poll
cycles for a single link.  Each report belongs to its own cycle with its own
`try/except` in `loop`, so an out-of-range error leaves that cycle without
effect and the next cycle proceeds from the unchanged state. -/
def runCycles (last : Int) (lu : LocalUser) (ag : Agent) :
    List Int → Int × LocalUser × Agent
  | [] => (last, lu, ag)
  | u :: us =>
    match applyUsage last lu ag u with
    | none => runCycles last lu ag us
    | some r => runCycles r.1 r.2.1 r.2.2 us

/-- The per-cycle deltas credited by the loop, starting from baseline `last`:
`used - last` when the report exceeds the baseline, `0` otherwise (the
rebase and no-op branches credit nothing). -/
def deltaSum (last : Int) : List Int → Int
  | [] => 0
  | u :: us => max (u - last) 0 + deltaSum u us

/-- `try_disable_if_user_exceeded` (usage_sync.py lines 228-244).  Input: the
`local_users` row (`None` when the SELECT finds nothing), the user's panel
links, and an oracle giving each remote disable call's outcome (the code only
logs it).  Output: the updated row and the list of issued disable calls.
When `limit > 0 and used >= limit and not pushed`, one disable call is issued
per link and then `mark_user_disabled` sets `disabled_pushed=1`
unconditionally (usage_sync.py lines 189-195). -/
def try_disable_if_user_exceeded (lu : Option LocalUser) (links : List PanelRef)
    (disableOk : PanelRef → Bool) : Option LocalUser × List (PanelRef × Bool) :=
  match lu with
  | none => (none, [])
  | some u =>
    if userOverQuota u && !u.disabled_pushed then
      (some { u with disabled_pushed := true }, links.map fun l => (l, disableOk l))
    else (some u, [])

/-- `try_enable_if_user_ok` (usage_sync.py lines 246-262): when
`pushed and (limit == 0 or used < limit)`, one enable call per link, then
`mark_user_enabled` clears the flag unconditionally. -/
def try_enable_if_user_ok (lu : Option LocalUser) (links : List PanelRef)
    (enableOk : PanelRef → Bool) : Option LocalUser × List (PanelRef × Bool) :=
  match lu with
  | none => (none, [])
  | some u =>
    if u.disabled_pushed &&
        (decide (u.plan_limit_bytes = 0) || decide (u.used_bytes < u.plan_limit_bytes)) then
      (some { u with disabled_pushed := false }, links.map fun l => (l, enableOk l))
    else (some u, [])

/-- Inputs of the agent-level enforcement functions of usage_sync.py: the
`agents` row, the denormalized `total_used_by_owner` value, the owner's local
users (each username with its direct panel links), the panels assigned to the
agent via `agent_panels`, the current time, and the call-outcome oracles. -/
structure AgentEnv where
  agentRow : Option Agent
  totalUsed : Int
  users : List (List Char × List PanelRef)
  assignedPanels : List PanelRef
  now : Int
  disableOk : PanelRef → Bool
  enableOk : PanelRef → Bool

/-- The remote disable calls issued by `try_disable_agent_if_exceeded` when it
fires: for every local username, first its direct links, then every assigned
panel addressed with the local username itself (usage_sync.py lines 386-397
and `disable_user_on_assigned_panels`, lines 317-325). -/
def agentDisableCalls (env : AgentEnv) : List (PanelRef × Bool) :=
  env.users.flatMap fun u =>
    (u.2.map fun l => (l, env.disableOk l)) ++
      (env.assignedPanels.map fun p =>
        (⟨p.panel_id, u.1⟩, env.disableOk ⟨p.panel_id, u.1⟩))

/-- The remote enable calls issued by `try_enable_agent_if_ok` when it fires
(usage_sync.py lines 430-439). -/
def agentEnableCalls (env : AgentEnv) : List (PanelRef × Bool) :=
  env.users.flatMap fun u =>
    (u.2.map fun l => (l, env.enableOk l)) ++
      (env.assignedPanels.map fun p =>
        (⟨p.panel_id, u.1⟩, env.enableOk ⟨p.panel_id, u.1⟩))

/-- `try_disable_agent_if_exceeded` (usage_sync.py lines 353-402).  Returns
the updated `agents` row, the issued disable calls, and whether
`mark_all_users_disabled` ran (setting `disabled_pushed=1` on every local
user of the owner).  Early returns: missing row; `active == 0`.  Fires when
`(expired or over_limit) and not already_pushed`; both flag updates are then
unconditional. -/
def try_disable_agent_if_exceeded (env : AgentEnv) :
    Option Agent × List (PanelRef × Bool) × Bool :=
  match env.agentRow with
  | none => (none, [], false)
  | some a =>
    if a.active = false then (some a, [], false)
    else if (agentExpired a env.now || agentOverLimit a env.totalUsed)
        && !a.disabled_pushed then
      (some { a with disabled_pushed := true }, agentDisableCalls env, true)
    else (some a, [], false)

/-- `try_enable_agent_if_ok` (usage_sync.py lines 404-442).  Early returns:
missing row; `active == 0`; flag not pushed.  Fires when the agent is neither
expired nor over limit; `mark_all_users_enabled` and `mark_agent_enabled`
then clear the flags unconditionally. -/
def try_enable_agent_if_ok (env : AgentEnv) :
    Option Agent × List (PanelRef × Bool) × Bool :=
  match env.agentRow with
  | none => (none, [], false)
  | some a =>
    if a.active = false then (some a, [], false)
    else if a.disabled_pushed = false then (some a, [], false)
    else if !agentExpired a env.now && !agentOverLimit a env.totalUsed then
      (some { a with disabled_pushed := false }, agentEnableCalls env, true)
    else (some a, [], false)

/-- The accumulating pass of `fetch_used_traffic` over the sub-identities of a
comma-joined sanaei `remote_username` (usage_sync.py lines 126-133): each
element is the result of one `api.get_user` call (`none` = failure); the
running total is returned unless some call fails, in which case the whole
fetch returns `none` immediately. -/
def fetchUsedMulti (total : Int) : List (Option Int) → Option Int
  | [] => some total
  | none :: _ => none
  | some t :: rest => fetchUsedMulti (total + t) rest

/-- `fetch_used_traffic` (usage_sync.py lines 122-139) for a multi-sub-identity
sanaei link, as a function of the per-sub-identity fetch results. -/
def fetch_used_traffic (subs : List (Option Int)) : Option Int :=
  fetchUsedMulti 0 subs

/-- Finite-map lookup over an association list (the first matching row, as a
`SELECT ... LIMIT 1`). -/
def alistGet {α β : Type} [DecidableEq α] (m : List (α × β)) (k : α) : Option β :=
  (m.find? fun kv => kv.1 = k).map fun kv => kv.2

/-- Finite-map update over an association list (an `UPDATE ... WHERE key = k`:
every matching row is overwritten, nothing is inserted). -/
def alistSet {α β : Type} [DecidableEq α] (m : List (α × β)) (k : α) (v : β) :
    List (α × β) :=
  m.map fun kv => if kv.1 = k then (k, v) else kv

/-- The database state touched by the per-link phase of `loop`:
baselines of `local_user_panel_links` (keyed by link id), `local_users` rows
(keyed by owner id and username), `agents` rows (keyed by owner id), each
user's panel links (the data `list_links_of_local_user` reads), and the log
of remote enable/disable calls issued so far. -/
structure SyncState where
  baselines : List (Nat × Int)
  users : List ((Nat × List Char) × LocalUser)
  agents : List (Nat × Agent)
  userLinks : List ((Nat × List Char) × List PanelRef)
  callLog : List (PanelRef × Bool)
deriving Repr, DecidableEq

/-- The two `UPDATE` statements of `add_usage` acting on the database state
(no-op on a missing row, like an `UPDATE` matching nothing).  As in
`add_usage`, a sum leaving the signed BIGINT range raises error 1690,
modelled as `none`; the uncommitted transaction is rolled back, so `none`
implies no mutation at all, even when the first `UPDATE` had already run. -/
def stAddUsage (st : SyncState) (owner : Nat) (uname : List Char) (delta : Int) :
    Option SyncState :=
  if delta ≤ 0 then some st
  else
    let users' :=
      match alistGet st.users (owner, uname) with
      | some u =>
        let su := u.used_bytes + delta
        if su < I64MIN ∨ I64MAX < su then none
        else
          some (alistSet st.users (owner, uname)
            { u with used_bytes := min su U64MAX })
      | none => some st.users
    match users' with
    | none => none
    | some us =>
      match alistGet st.agents owner with
      | some a =>
        let sa := a.total_used_bytes + delta
        if sa < I64MIN ∨ I64MAX < sa then none
        else
          some { st with
            users := us,
            agents := alistSet st.agents owner
              { a with total_used_bytes := min sa U64MAX } }
      | none => some { st with users := us }

/-- `try_disable_if_user_exceeded` acting on the database state. -/
def stTryDisableUser (ok : PanelRef → Bool) (st : SyncState) (owner : Nat)
    (uname : List Char) : SyncState :=
  let links := (alistGet st.userLinks (owner, uname)).getD []
  match try_disable_if_user_exceeded (alistGet st.users (owner, uname)) links ok with
  | (none, _) => st
  | (some u, calls) =>
    { st with
      users := alistSet st.users (owner, uname) u,
      callLog := st.callLog ++ calls }

/-- `try_enable_if_user_ok` acting on the database state. -/
def stTryEnableUser (ok : PanelRef → Bool) (st : SyncState) (owner : Nat)
    (uname : List Char) : SyncState :=
  let links := (alistGet st.userLinks (owner, uname)).getD []
  match try_enable_if_user_ok (alistGet st.users (owner, uname)) links ok with
  | (none, _) => st
  | (some u, calls) =>
    { st with
      users := alistSet st.users (owner, uname) u,
      callLog := st.callLog ++ calls }

/-- One row of the cycle's `fetch_all_links()` snapshot: link id, owner,
local username, and the baseline as read at the start of the cycle. -/
structure LinkRow where
  link_id : Nat
  owner_id : Nat
  local_username : List Char
  last_used_traffic : Int
deriving Repr, DecidableEq

/-- The body of the per-link `for` loop of `loop` (usage_sync.py lines
462-486) for one link, given the outcome of its `fetch_used_traffic` call:
* fetch failed — log and `continue`, state untouched;
* `used < last` — `update_last` only, then `continue` (no enforcement);
* otherwise the `delta > 0` ledger update (if any), then
  `try_disable_if_user_exceeded` and `try_enable_if_user_ok`.
`none` is the out-of-range error escaping the ledger update: the exception
propagates out of the `for` loop into the cycle's `except` handler. -/
def cycleStep (dOk eOk : PanelRef → Bool) (st : SyncState) (row : LinkRow)
    (fetched : Option Int) : Option SyncState :=
  match fetched with
  | none => some st
  | some used =>
    if used < row.last_used_traffic then
      some { st with baselines := alistSet st.baselines row.link_id used }
    else
      let delta := used - row.last_used_traffic
      let st1 :=
        if 0 < delta then
          match stAddUsage st row.owner_id row.local_username delta with
          | none => none
          | some st' =>
            some { st' with baselines := alistSet st'.baselines row.link_id used }
        else some st
      match st1 with
      | none => none
      | some st1 =>
        let st2 := stTryDisableUser dOk st1 row.owner_id row.local_username
        some (stTryEnableUser eOk st2 row.owner_id row.local_username)

/-- The whole per-link phase of one cycle of `loop`: the links of the
snapshot processed strictly in sequence, each paired with its fetch result.
An out-of-range error aborts the remainder of the cycle (the exception is
caught by the cycle-level `except`), leaving the state committed so far. -/
def runCycle (dOk eOk : PanelRef → Bool) (st : SyncState) :
    List (LinkRow × Option Int) → SyncState
  | [] => st
  | (row, f) :: rest =>
    match cycleStep dOk eOk st row f with
    | none => st
    | some st' => runCycle dOk eOk st' rest

/-- `GREATEST(total_used_bytes - amount, 0)` — the credit-removal update run
by `reset_used` and `delete_local_user` (bot.py). -/
def creditRemoval (total amount : Int) : Int := max (total - amount) 0

/-- The ledger effect of `reset_used` (bot.py): read the user's current
`used_bytes`, zero it, and, when it was positive, run the floored decrement
on the owning agent's `total_used_bytes`. -/
def reset_used (lu : LocalUser) (ag : Agent) : LocalUser × Agent :=
  let prev := lu.used_bytes
  ({ lu with used_bytes := 0 },
   if 0 < prev then
     { ag with total_used_bytes := creditRemoval ag.total_used_bytes prev }
   else ag)

/-- The effect of `delete_local_user` (bot.py) on the owning agent's row:
the user's rows are deleted and, when the recorded `used_bytes` was positive,
the same floored decrement runs on `total_used_bytes`. -/
def delete_local_user (lu : LocalUser) (ag : Agent) : Agent :=
  if 0 < lu.used_bytes then
    { ag with total_used_bytes := creditRemoval ag.total_used_bytes lu.used_bytes }
  else ag

/-- Python's whitespace class as used by `str.strip()` and the regex class
`\s`, restricted to the ASCII whitespace characters (the code never produces
the exotic Unicode spaces this elides). -/
def pyIsSpace (c : Char) : Bool :=
  c = ' ' || c = '\t' || c = '\n' || c = '\r' ||
    c = Char.ofNat 11 || c = Char.ofNat 12

/-- `str.strip(chars)`: drop the characters satisfying `p` from both ends. -/
def pyStrip (p : Char → Bool) (s : List Char) : List Char :=
  ((s.dropWhile p).reverse.dropWhile p).reverse

/-- `str.lower()`, modelled for ASCII case mapping (`Char.toLower`); the
scheme comparison below only inspects ASCII characters. -/
def pyLower (s : List Char) : List Char := s.map Char.toLower

/-- `ALLOWED_SCHEMES = ("vless://", "vmess://", "trojan://", "ss://")`
(app.py line 37). -/
def ALLOWED_SCHEMES : List (List Char) :=
  ["vless://".data, "vmess://".data, "trojan://".data, "ss://".data]

/-- `ss.lower().startswith(ALLOWED_SCHEMES)`. -/
def startsWithAllowed (s : List Char) : Bool :=
  ALLOWED_SCHEMES.any fun p => p.isPrefixOf (pyLower s)

/-- The apostrophe character, the argument of the second `.strip` below. -/
def squote : Char := Char.ofNat 39

/-- The entry normalization of `filter_dedupe`:
`s.strip().strip(chr(34)).strip(chr(39))` (app.py line 378). -/
def cleanse (s : List Char) : List Char :=
  pyStrip (fun c => c = squote) (pyStrip (fun c => c = '"') (pyStrip pyIsSpace s))

/-- The loop of `filter_dedupe` with the `seen` set accumulated so far:
entries failing the scheme allow-list are dropped, duplicates (exact string
equality on the cleansed entry) are dropped, first occurrences are kept in
input order. -/
def filterDedupeAux (seen : List (List Char)) :
    List (List Char) → List (List Char)
  | [] => []
  | s :: rest =>
    let ss := cleanse s
    if !startsWithAllowed ss then filterDedupeAux seen rest
    else if ss ∈ seen then filterDedupeAux seen rest
    else ss :: filterDedupeAux (ss :: seen) rest

/-- `filter_dedupe` (app.py lines 375-384). -/
def filter_dedupe (links : List (List Char)) : List (List Char) :=
  filterDedupeAux [] links

/-- Hexadecimal digit test for percent-decoding. -/
def isHexDigit (c : Char) : Bool :=
  c.isDigit || ('a' ≤ c && c ≤ 'f') || ('A' ≤ c && c ≤ 'F')

/-- Value of a hexadecimal digit. -/
def hexVal (c : Char) : Nat :=
  if c.isDigit then c.toNat - 48
  else if 'a' ≤ c then c.toNat - 87
  else c.toNat - 55

/-- `urllib.parse.unquote`, modelled at the code-point level: every `%XX`
with two hexadecimal digits decodes to the character of that value; a `%` not
followed by two hexadecimal digits, and every other character, passes
through.  (CPython additionally assembles consecutive high bytes into UTF-8
sequences; the inputs relevant to the claims decode bytes below 0x80, where
the two semantics agree.) -/
def unquoteAux : Nat → List Char → List Char
  | 0, s => s
  | _ + 1, [] => []
  | fuel + 1, c :: rest =>
    if c = '%' then
      match rest with
      | a :: b :: r2 =>
        if isHexDigit a && isHexDigit b then
          Char.ofNat (16 * hexVal a + hexVal b) :: unquoteAux fuel r2
        else c :: unquoteAux fuel rest
      | _ => c :: unquoteAux fuel rest
    else c :: unquoteAux fuel rest

/-- Percent-decoding of a whole string.  The fuel starts at the length of the
input and every step consumes at least one character, so it is never
exhausted. -/
def unquote (s : List Char) : List Char := unquoteAux s.length s

/-- `[KMGT]`, case-insensitively (the substitution is compiled with `re.I`). -/
def isUnitChar (c : Char) : Bool :=
  c = 'K' || c = 'M' || c = 'G' || c = 'T' ||
    c = 'k' || c = 'm' || c = 'g' || c = 't'

/-- `B` case-insensitively. -/
def isBChar (c : Char) : Bool := c = 'B' || c = 'b'

/-- Matcher for the regex fragment `\d+(?:\.\d+)?` at the head of `s`:
returns the remainder after the greedy match, or `none` when no digit leads.
The optional fractional group is skipped when the dot is not followed by a
digit (the regex engine backtracks out of it). -/
def matchNum (s : List Char) : Option (List Char) :=
  let s1 := s.dropWhile Char.isDigit
  if s1.length = s.length then none
  else
    match s1 with
    | '.' :: r =>
      let r1 := r.dropWhile Char.isDigit
      if r1.length = r.length then some s1 else some r1
    | _ => some s1

/-- Matcher for the regex fragment `[KMGT]?B` (case-insensitive) at the head
of `s`.  The optional unit is taken only when a `B` follows it; since no unit
character is itself a `B`, this reproduces the engine's backtracking. -/
def matchUnitB : List Char → Option (List Char)
  | c :: c2 :: r =>
    if isUnitChar c && isBChar c2 then some r
    else if isBChar c then some (c2 :: r) else none
  | [c] => if isBChar c then some [] else none
  | [] => none

/-- Matcher for the whole traffic pattern
`\s*\d+(?:\.\d+)?\s*[KMGT]?B/\d+(?:\.\d+)?\s*[KMGT]?B` (re.I) at the head of
`s` (app.py line 390): returns the remainder after the match.  Each `\s*` and
`\d+` is greedy; no backtracking into them is possible because the character
classes of adjacent fragments are disjoint. -/
def matchTraffic (s : List Char) : Option (List Char) := do
  let s1 ← matchNum (s.dropWhile pyIsSpace)
  let s2 ← matchUnitB (s1.dropWhile pyIsSpace)
  match s2 with
  | '/' :: s3 => do
    let s4 ← matchNum s3
    matchUnitB (s4.dropWhile pyIsSpace)
  | _ => none

/-- `re.sub` of the traffic pattern with the empty replacement: scan left to
right, delete each leftmost match, continue after it.  The fuel starts at the
length of the input; every step consumes at least one character (a match
contains at least `1B/1B`), so the fuel is never exhausted. -/
def subTrafficAux : Nat → List Char → List Char
  | 0, s => s
  | _ + 1, [] => []
  | fuel + 1, c :: rest =>
    match matchTraffic (c :: rest) with
    | some r => subTrafficAux fuel r
    | none => c :: subTrafficAux fuel rest

/-- `nm = re.sub(traffic_pattern, "", nm, flags=re.I)` (app.py line 390). -/
def subTraffic (s : List Char) : List Char := subTrafficAux s.length s

/-- Matcher for `\s*👤.*` at the head of `s`: whitespace, the owner-tag
marker, then greedily everything up to the next newline (`.` does not match
`\n`). -/
def matchOwnerTag (s : List Char) : Option (List Char) :=
  match s.dropWhile pyIsSpace with
  | c :: r =>
    if c = '👤' then some (r.dropWhile fun c2 => !(c2 = '\n')) else none
  | [] => none

/-- `re.sub` of the owner-tag pattern with the empty replacement. -/
def subOwnerTagAux : Nat → List Char → List Char
  | 0, s => s
  | _ + 1, [] => []
  | fuel + 1, c :: rest =>
    match matchOwnerTag (c :: rest) with
    | some r => subOwnerTagAux fuel r
    | none => c :: subOwnerTagAux fuel rest

/-- `nm = re.sub(r"\s*👤.*", "", nm)` (app.py line 391). -/
def subOwnerTag (s : List Char) : List Char := subOwnerTagAux s.length s

/-- The character class `[a-zA-Z0-9_-]` of the parenthetical-token pattern. -/
def isTokChar (c : Char) : Bool := c.isAlphanum || c = '_' || c = '-'

/-- Matcher for `\s*\([a-zA-Z0-9_-]{3,}\)` at the head of `s`: whitespace, an
opening parenthesis, at least three token characters (greedy; the class does
not contain the closing parenthesis, so no backtracking), a closing
parenthesis. -/
def matchParen (s : List Char) : Option (List Char) :=
  match s.dropWhile pyIsSpace with
  | '(' :: r =>
    if 3 ≤ (r.takeWhile isTokChar).length then
      match r.dropWhile isTokChar with
      | ')' :: r3 => some r3
      | _ => none
    else none
  | _ => none

/-- `re.sub` of the parenthetical-token pattern with the empty replacement. -/
def subParenAux : Nat → List Char → List Char
  | 0, s => s
  | _ + 1, [] => []
  | fuel + 1, c :: rest =>
    match matchParen (c :: rest) with
    | some r => subParenAux fuel r
    | none => c :: subParenAux fuel rest

/-- `nm = re.sub(r"\s*\([a-zA-Z0-9_-]{3,}\)", "", nm)` (app.py line 392). -/
def subParen (s : List Char) : List Char := subParenAux s.length s

/-- `re.sub(r"\s+", " ", nm)`: every maximal whitespace run becomes one
space.  Fuel as above; every step consumes at least one character. -/
def collapseWsAux : Nat → List Char → List Char
  | 0, s => s
  | _ + 1, [] => []
  | fuel + 1, c :: rest =>
    if pyIsSpace c then ' ' :: collapseWsAux fuel (rest.dropWhile pyIsSpace)
    else c :: collapseWsAux fuel rest

/-- `nm = re.sub(r"\s+", " ", nm)` (app.py line 393). -/
def collapseWs (s : List Char) : List Char := collapseWsAux s.length s

/-- `canonicalize_name` (app.py lines 386-396): percent-decode and strip,
delete traffic annotations, delete the owner tag and everything after it,
delete parenthetical tokens, collapse whitespace runs, strip again and
truncate to 255 characters.  (The surrounding `try/except` returning the
empty string cannot fire in this pure model.) -/
def canonicalize_name (name : List Char) : List Char :=
  let nm := pyStrip pyIsSpace (unquote name)
  let nm := subTraffic nm
  let nm := subOwnerTag nm
  let nm := subParen nm
  let nm := collapseWs nm
  (pyStrip pyIsSpace nm).take 255

/-- A string is whitespace-normal when every whitespace character in it is a
plain space and no two adjacent characters are both whitespace — the shape
every output of `collapseWs` has, and exactly the shape `collapseWs` fixes. -/
def WsNormal (s : List Char) : Prop :=
  (∀ c ∈ s, pyIsSpace c = true → c = ' ') ∧
    List.Chain' (fun a b => pyIsSpace a = true → pyIsSpace b = false) s

/-- `get_agent` in app.py (lines 435-448): the `agents` row is selected
`WHERE telegram_user_id IN (...) AND active=1`, so an inactive row is
invisible to the read path. -/
def get_agent (row : Option Agent) : Option Agent :=
  row.bind fun a => if a.active then some a else none

/-- The plain-text response bodies `unified_links` can produce: the empty
body, the single templated "limit reached" placeholder configuration, the
joined deduplicated link list, or the per-panel error comment lines. -/
inductive Body where
  | empty
  | limitReached
  | links (ls : List (List Char))
  | comments (es : List (List Char))
deriving Repr, DecidableEq

/-- The data a `unified_links` request reads: the `agents` row of the owner
(possibly inactive), the agent's `total_used_bytes`, the owner's full link
list (`list_all_agent_links`), the user's own mapped links
(`list_mapped_links`), the per-panel fallback synthesized from
`list_all_panels` when no mapping exists, the raw aggregation results
(`collect_links`), the current time, and the disable-call outcome oracle. -/
structure GateEnv where
  agentRow : Option Agent
  agentTotalUsed : Int
  agentLinks : List PanelRef
  userLinks : List PanelRef
  fallbackLinks : List PanelRef
  aggLinks : List (List Char)
  aggErrors : List (List Char)
  now : Int
  disableOk : PanelRef → Bool

/-- The observable outcome of a `unified_links` request: response body, the
remote disable calls issued at the agent and at the user gate, and the
`agents` and `local_users` rows after the request. -/
structure GateOut where
  body : Body
  agentCalls : List (PanelRef × Bool)
  userCalls : List (PanelRef × Bool)
  agentAfter : Option Agent
  userAfter : LocalUser
deriving Repr, DecidableEq

/-- The aggregation tail of `unified_links` (app.py lines 666-672): the
deduplicated filtered list when non-empty, else the collected error strings
as comment lines, else the empty body. -/
def aggBody (env : GateEnv) : Body :=
  let uniq := filter_dedupe env.aggLinks
  if uniq.isEmpty then
    if env.aggErrors.isEmpty then Body.empty else Body.comments env.aggErrors
  else Body.links uniq

/-- The user-level gate and aggregation of `unified_links` (app.py lines
606-683), reached when the agent gate did not block.  When
`limit > 0 and used >= limit`: if not yet pushed, one disable call per mapped
link (falling back to every panel of the owner when no mapping exists) and
`mark_user_disabled`; the body is the "limit reached" placeholder either
way.  Otherwise the aggregated body is returned. -/
def userGate (lu : LocalUser) (env : GateEnv) (ag : Option Agent) : GateOut :=
  if userOverQuota lu then
    if lu.disabled_pushed = false then
      let links := if env.userLinks.isEmpty then env.fallbackLinks else env.userLinks
      { body := Body.limitReached,
        agentCalls := [],
        userCalls := links.map fun l => (l, env.disableOk l),
        agentAfter := ag,
        userAfter := { lu with disabled_pushed := true } }
    else
      { body := Body.limitReached, agentCalls := [], userCalls := [],
        agentAfter := ag, userAfter := lu }
  else
    { body := aggBody env, agentCalls := [], userCalls := [],
      agentAfter := ag, userAfter := lu }

/-- `unified_links` (app.py lines 567-683) for a resolved owner and an
existing `local_users` row, on the plain-text path (a subscription reader
does not send `Accept: text/html`).  The agent gate runs first: when the
active agent row is expired or over quota, the request returns the empty
body immediately — issuing one disable call per agent link and marking the
agent pushed first, if it was not already — regardless of the calls'
outcomes.  Only then the user gate and the aggregation run. -/
def unified_links (lu : LocalUser) (env : GateEnv) : GateOut :=
  match get_agent env.agentRow with
  | some a =>
    if agentExpired a env.now || agentOverLimit a env.agentTotalUsed then
      if a.disabled_pushed = false then
        { body := Body.empty,
          agentCalls := env.agentLinks.map fun l => (l, env.disableOk l),
          userCalls := [],
          agentAfter := some { a with disabled_pushed := true },
          userAfter := lu }
      else
        { body := Body.empty, agentCalls := [], userCalls := [],
          agentAfter := some a, userAfter := lu }
    else userGate lu env (some a)
  | none => userGate lu env none

/-! ## Claim theorems -/

/-- C1: when a LocalUser's `disabled_pushed` flag is already set,
`try_disable_if_user_exceeded` issues no remote disable call and leaves the
row unchanged, whatever the earlier call outcomes were; and on the
OK-to-PUSHED transition (over quota, flag clear) the flag is set regardless
of the outcome of any of the per-link disable calls just issued. -/
theorem claim_C1 (u : LocalUser) (links : List PanelRef) (ok : PanelRef → Bool) :
    (u.disabled_pushed = true →
      try_disable_if_user_exceeded (some u) links ok = (some u, [])) ∧
    (u.disabled_pushed = false → 0 < u.plan_limit_bytes →
      u.plan_limit_bytes ≤ u.used_bytes →
      try_disable_if_user_exceeded (some u) links ok =
        (some { u with disabled_pushed := true },
         links.map fun l => (l, ok l))) := by
  constructor
  · intro h
    simp [try_disable_if_user_exceeded, h]
  · intro h h1 h2
    simp [try_disable_if_user_exceeded, userOverQuota, h, h1, h2]

/-- C1 witness: both branches at concrete inputs (limit 10, used 20; a single
link; a disable oracle that always fails). -/
theorem claim_C1_witness :
    try_disable_if_user_exceeded (some ⟨10, 20, true⟩) [⟨1, []⟩] (fun _ => false) =
      (some ⟨10, 20, true⟩, []) ∧
    try_disable_if_user_exceeded (some ⟨10, 20, false⟩) [⟨1, []⟩] (fun _ => false) =
      (some ⟨10, 20, true⟩, [(⟨1, []⟩, false)]) :=
  ⟨(claim_C1 ⟨10, 20, true⟩ [⟨1, []⟩] (fun _ => false)).1 rfl,
   (claim_C1 ⟨10, 20, false⟩ [⟨1, []⟩] (fun _ => false)).2 rfl (by decide) (by decide)⟩

/-- C2: a reported value strictly below the stored baseline rebases the
baseline to the reported value and changes nothing else: in the loop body
this runs `update_last` only and skips the ledger and the enforcement, so
`used_bytes` and `total_used_bytes` are untouched by that link this cycle. -/
theorem claim_C2 (last used : Int) (lu : LocalUser) (ag : Agent)
    (dOk eOk : PanelRef → Bool) (st : SyncState) (row : LinkRow)
    (h : used < last) (hrow : row.last_used_traffic = last) :
    applyUsage last lu ag used = some (used, lu, ag) ∧
    cycleStep dOk eOk st row (some used) =
      some { st with baselines := alistSet st.baselines row.link_id used } := by
  constructor
  · simp [applyUsage, h]
  · simp [cycleStep, hrow, h]

/-- C2 witness: baseline 900, report 500 — the baseline becomes 500 and the
user and agent rows come back unchanged. -/
theorem claim_C2_witness :
    applyUsage 900 ⟨1000, 800, false⟩ ⟨0, 800, none, true, false⟩ 500 =
      some (500, ⟨1000, 800, false⟩, ⟨0, 800, none, true, false⟩) ∧
    cycleStep (fun _ => true) (fun _ => true)
      ⟨[(1, 900)], [], [], [], []⟩ ⟨1, 7, [], 900⟩ (some 500) =
      some ⟨[(1, 500)], [], [], [], []⟩ :=
  claim_C2 900 500 ⟨1000, 800, false⟩ ⟨0, 800, none, true, false⟩
    (fun _ => true) (fun _ => true) ⟨[(1, 900)], [], [], [], []⟩
    ⟨1, 7, [], 900⟩ (by decide) rfl

/-- C7: the credit removal run by both `reset_used` and `delete_local_user`
leaves the owning agent with `max(total_used_bytes - used_bytes, 0)`: the
decrement is floored at zero, so the aggregate is never negative. -/
theorem claim_C7 (lu : LocalUser) (ag : Agent)
    (hu : 0 ≤ lu.used_bytes) (ha : 0 ≤ ag.total_used_bytes) :
    (reset_used lu ag).2.total_used_bytes =
      max (ag.total_used_bytes - lu.used_bytes) 0 ∧
    (delete_local_user lu ag).total_used_bytes =
      max (ag.total_used_bytes - lu.used_bytes) 0 ∧
    0 ≤ (reset_used lu ag).2.total_used_bytes ∧
    0 ≤ (delete_local_user lu ag).total_used_bytes ∧
    (reset_used lu ag).1.used_bytes = 0 := by
  by_cases h : 0 < lu.used_bytes
  · refine ⟨?_, ?_, ?_, ?_, ?_⟩ <;>
      simp [reset_used, delete_local_user, creditRemoval, h]
  · have h0 : lu.used_bytes = 0 := le_antisymm (not_lt.mp h) hu
    refine ⟨?_, ?_, ?_, ?_, ?_⟩ <;>
      simp [reset_used, delete_local_user, h, h0, max_eq_left ha, ha]

/-- C7 witness: used 5, aggregate 3 — the decrement floors at 0 rather than
going to -2; the user's counter is zeroed. -/
theorem claim_C7_witness :
    (reset_used ⟨0, 5, false⟩ ⟨0, 3, none, true, false⟩).2.total_used_bytes =
      max ((3 : Int) - 5) 0 ∧
    (delete_local_user ⟨0, 5, false⟩ ⟨0, 3, none, true, false⟩).total_used_bytes =
      max ((3 : Int) - 5) 0 ∧
    0 ≤ (reset_used ⟨0, 5, false⟩ ⟨0, 3, none, true, false⟩).2.total_used_bytes ∧
    0 ≤ (delete_local_user ⟨0, 5, false⟩ ⟨0, 3, none, true, false⟩).total_used_bytes ∧
    (reset_used ⟨0, 5, false⟩ ⟨0, 3, none, true, false⟩).1.used_bytes = 0 :=
  claim_C7 ⟨0, 5, false⟩ ⟨0, 3, none, true, false⟩ (by decide) (by decide)

/-- C10: for an inactive agent row, both directions of agent-level
enforcement return without a remote call and without touching any
`disabled_pushed` flag, even if over quota or expired; and on the read path
`get_agent` hides the row, so `unified_links` behaves exactly as if the
owner had no agent row at all. -/
theorem claim_C10 (env : AgentEnv) (a : Agent) (lu : LocalUser) (genv : GateEnv)
    (hrow : env.agentRow = some a) (h : a.active = false) :
    try_disable_agent_if_exceeded env = (some a, [], false) ∧
    try_enable_agent_if_ok env = (some a, [], false) ∧
    get_agent (some a) = none ∧
    unified_links lu { genv with agentRow := some a } =
      unified_links lu { genv with agentRow := none } := by
  refine ⟨?_, ?_, ?_, ?_⟩
  · simp [try_disable_agent_if_exceeded, hrow, h]
  · simp [try_enable_agent_if_ok, hrow, h]
  · simp [get_agent, h]
  · simp [unified_links, get_agent, userGate, aggBody, h]

/-- C10 witness: a concrete inactive agent that is both over quota and
expired; neither enforcement direction acts and the read gate ignores it. -/
theorem claim_C10_witness :
    try_disable_agent_if_exceeded
        ⟨some ⟨10, 50, some 0, false, false⟩, 50, [], [], 5, fun _ => true,
          fun _ => true⟩ =
      (some ⟨10, 50, some 0, false, false⟩, [], false) ∧
    try_enable_agent_if_ok
        ⟨some ⟨10, 50, some 0, false, false⟩, 50, [], [], 5, fun _ => true,
          fun _ => true⟩ =
      (some ⟨10, 50, some 0, false, false⟩, [], false) ∧
    get_agent (some ⟨10, 50, some 0, false, false⟩) = none ∧
    unified_links ⟨0, 0, false⟩
        { agentRow := some ⟨10, 50, some 0, false, false⟩, agentTotalUsed := 50,
          agentLinks := [], userLinks := [], fallbackLinks := [], aggLinks := [],
          aggErrors := [], now := 5, disableOk := fun _ => true } =
      unified_links ⟨0, 0, false⟩
        { agentRow := none, agentTotalUsed := 50, agentLinks := [],
          userLinks := [], fallbackLinks := [], aggLinks := [], aggErrors := [],
          now := 5, disableOk := fun _ => true } :=
  claim_C10
    ⟨some ⟨10, 50, some 0, false, false⟩, 50, [], [], 5, fun _ => true,
      fun _ => true⟩
    ⟨10, 50, some 0, false, false⟩ ⟨0, 0, false⟩
    { agentRow := none, agentTotalUsed := 50, agentLinks := [], userLinks := [],
      fallbackLinks := [], aggLinks := [], aggErrors := [], now := 5,
      disableOk := fun _ => true }
    rfl rfl

/-- C4: on a subscription read whose owning agent (active row) is over quota
or expired, the plain-text response body is empty no matter what the disable
oracle answers; when the agent's `disabled_pushed` was still clear, exactly
one disable call per agent link is issued and the flag is set before the
request returns; when it was already set, no call is issued. -/
theorem claim_C4 (lu : LocalUser) (env : GateEnv) (a : Agent)
    (hrow : env.agentRow = some a) (hact : a.active = true)
    (hblock : (agentExpired a env.now || agentOverLimit a env.agentTotalUsed) = true) :
    (unified_links lu env).body = Body.empty ∧
    (unified_links lu env).userAfter = lu ∧
    (a.disabled_pushed = false →
      (unified_links lu env).agentCalls =
          env.agentLinks.map (fun l => (l, env.disableOk l)) ∧
        (unified_links lu env).agentAfter = some { a with disabled_pushed := true }) ∧
    (a.disabled_pushed = true →
      (unified_links lu env).agentCalls = [] ∧
        (unified_links lu env).agentAfter = some a) := by
  have hga : get_agent env.agentRow = some a := by simp [get_agent, hrow, hact]
  cases hp : a.disabled_pushed <;>
    simp [unified_links, hga, hblock, hp]

/-- C4 witness: an agent with limit 100 and 150 used, flag clear, one link,
an always-failing disable oracle — the body is still empty and the flag is
set, and the single call was issued. -/
theorem claim_C4_witness :
    (unified_links ⟨0, 0, false⟩
        { agentRow := some ⟨100, 0, none, true, false⟩, agentTotalUsed := 150,
          agentLinks := [⟨1, []⟩], userLinks := [], fallbackLinks := [],
          aggLinks := [], aggErrors := [], now := 0,
          disableOk := fun _ => false }).body = Body.empty ∧
    (unified_links ⟨0, 0, false⟩
        { agentRow := some ⟨100, 0, none, true, false⟩, agentTotalUsed := 150,
          agentLinks := [⟨1, []⟩], userLinks := [], fallbackLinks := [],
          aggLinks := [], aggErrors := [], now := 0,
          disableOk := fun _ => false }).userAfter = ⟨0, 0, false⟩ ∧
    ((false : Bool) = false →
      (unified_links ⟨0, 0, false⟩
          { agentRow := some ⟨100, 0, none, true, false⟩, agentTotalUsed := 150,
            agentLinks := [⟨1, []⟩], userLinks := [], fallbackLinks := [],
            aggLinks := [], aggErrors := [], now := 0,
            disableOk := fun _ => false }).agentCalls = [(⟨1, []⟩, false)] ∧
        (unified_links ⟨0, 0, false⟩
            { agentRow := some ⟨100, 0, none, true, false⟩, agentTotalUsed := 150,
              agentLinks := [⟨1, []⟩], userLinks := [], fallbackLinks := [],
              aggLinks := [], aggErrors := [], now := 0,
              disableOk := fun _ => false }).agentAfter =
          some ⟨100, 0, none, true, true⟩) ∧
    ((false : Bool) = true →
      (unified_links ⟨0, 0, false⟩
          { agentRow := some ⟨100, 0, none, true, false⟩, agentTotalUsed := 150,
            agentLinks := [⟨1, []⟩], userLinks := [], fallbackLinks := [],
            aggLinks := [], aggErrors := [], now := 0,
            disableOk := fun _ => false }).agentCalls = [] ∧
        (unified_links ⟨0, 0, false⟩
            { agentRow := some ⟨100, 0, none, true, false⟩, agentTotalUsed := 150,
              agentLinks := [⟨1, []⟩], userLinks := [], fallbackLinks := [],
              aggLinks := [], aggErrors := [], now := 0,
              disableOk := fun _ => false }).agentAfter =
          some ⟨100, 0, none, true, false⟩) :=
  claim_C4 ⟨0, 0, false⟩
    { agentRow := some ⟨100, 0, none, true, false⟩, agentTotalUsed := 150,
      agentLinks := [⟨1, []⟩], userLinks := [], fallbackLinks := [],
      aggLinks := [], aggErrors := [], now := 0, disableOk := fun _ => false }
    ⟨100, 0, none, true, false⟩ rfl rfl (by decide)

/-- C5: an entity with `plan_limit_bytes = 0` is never over quota, whatever
its used counter: the user-level predicate and the agent-level predicate are
false, `try_disable_if_user_exceeded` never fires, the read-path user gate
passes through without a call, and the agent-level disable can only fire
through expiry. -/
theorem claim_C5 (u : LocalUser) (a : Agent) (links : List PanelRef)
    (ok : PanelRef → Bool) (env : AgentEnv) (genv : GateEnv) (totalUsed : Int)
    (hu : u.plan_limit_bytes = 0) (ha : a.plan_limit_bytes = 0) :
    userOverQuota u = false ∧
    agentOverLimit a totalUsed = false ∧
    try_disable_if_user_exceeded (some u) links ok = (some u, []) ∧
    ((userGate u genv none).userCalls = [] ∧ (userGate u genv none).userAfter = u) ∧
    (env.agentRow = some a → agentExpired a env.now = false →
      try_disable_agent_if_exceeded env = (some a, [], false)) := by
  have h1 : userOverQuota u = false := by simp [userOverQuota, hu]
  have h2 : agentOverLimit a totalUsed = false := by simp [agentOverLimit, ha]
  refine ⟨h1, ?_, ?_, ?_, ?_⟩
  · simp [agentOverLimit, ha]
  · simp [try_disable_if_user_exceeded, h1]
  · constructor <;> simp [userGate, h1]
  · intro hrow hexp
    cases hact : a.active <;>
      simp [try_disable_agent_if_exceeded, hrow, hact, hexp,
        agentOverLimit, ha]

/-- C5 witness: user and agent with limit 0 and an astronomically large used
counter; nothing fires, and the agent enforcement is a no-op while not
expired. -/
theorem claim_C5_witness :
    userOverQuota ⟨0, 999999999999, false⟩ = false ∧
    agentOverLimit ⟨0, 0, some 100, true, false⟩ 999999999999 = false ∧
    try_disable_if_user_exceeded (some ⟨0, 999999999999, false⟩) [⟨1, []⟩]
        (fun _ => true) = (some ⟨0, 999999999999, false⟩, []) ∧
    ((userGate ⟨0, 999999999999, false⟩
          { agentRow := none, agentTotalUsed := 0, agentLinks := [],
            userLinks := [], fallbackLinks := [], aggLinks := [],
            aggErrors := [], now := 0, disableOk := fun _ => true }
          none).userCalls = [] ∧
      (userGate ⟨0, 999999999999, false⟩
          { agentRow := none, agentTotalUsed := 0, agentLinks := [],
            userLinks := [], fallbackLinks := [], aggLinks := [],
            aggErrors := [], now := 0, disableOk := fun _ => true }
          none).userAfter = ⟨0, 999999999999, false⟩) ∧
    (AgentEnv.agentRow
          ⟨some ⟨0, 0, some 100, true, false⟩, 999999999999, [], [], 50,
            fun _ => true, fun _ => true⟩ =
        some ⟨0, 0, some 100, true, false⟩ →
      agentExpired ⟨0, 0, some 100, true, false⟩ 50 = false →
      try_disable_agent_if_exceeded
          ⟨some ⟨0, 0, some 100, true, false⟩, 999999999999, [], [], 50,
            fun _ => true, fun _ => true⟩ =
        (some ⟨0, 0, some 100, true, false⟩, [], false)) :=
  claim_C5 ⟨0, 999999999999, false⟩ ⟨0, 0, some 100, true, false⟩ [⟨1, []⟩]
    (fun _ => true)
    ⟨some ⟨0, 0, some 100, true, false⟩, 999999999999, [], [], 50,
      fun _ => true, fun _ => true⟩
    { agentRow := none, agentTotalUsed := 0, agentLinks := [], userLinks := [],
      fallbackLinks := [], aggLinks := [], aggErrors := [], now := 0,
      disableOk := fun _ => true }
    999999999999 rfl rfl

/-- The accumulating fetch returns `none` as soon as any sub-identity fetch
failed. -/
theorem fetchUsedMulti_of_mem_none (subs : List (Option Int)) :
    ∀ acc, none ∈ subs → fetchUsedMulti acc subs = none := by
  induction subs with
  | nil => intro acc h; cases h
  | cons x rest ih =>
    intro acc h
    cases x with
    | none => rfl
    | some t =>
      have : none ∈ rest := by
        rcases List.mem_cons.mp h with h1 | h1
        · exact absurd h1.symm (Option.some_ne_none t)
        · exact h1
      exact ih _ this

/-- The accumulating fetch over all-successful sub-identities returns the
accumulated sum. -/
theorem fetchUsedMulti_map_some (ts : List Int) :
    ∀ acc, fetchUsedMulti acc (ts.map some) = some (acc + ts.sum) := by
  induction ts with
  | nil => intro acc; simp [fetchUsedMulti]
  | cons t rest ih =>
    intro acc
    simp only [List.map_cons, fetchUsedMulti, ih, List.sum_cons]
    ring_nf

/-- C6: for a comma-joined (sanaei) link, the fetched figure is the sum of
the sub-identities' `used_traffic` values; one failed sub-identity makes the
whole link's fetch fail; and a failed link is skipped by the cycle with no
state mutated while the remaining links are processed exactly as without
it. -/
theorem claim_C6 :
    (∀ subs : List (Option Int), none ∈ subs → fetch_used_traffic subs = none) ∧
    (∀ ts : List Int, fetch_used_traffic (ts.map some) = some ts.sum) ∧
    (∀ (dOk eOk : PanelRef → Bool) (st : SyncState) (row : LinkRow)
        (rest : List (LinkRow × Option Int)),
      runCycle dOk eOk st ((row, none) :: rest) = runCycle dOk eOk st rest) := by
  refine ⟨?_, ?_, ?_⟩
  · intro subs h
    exact fetchUsedMulti_of_mem_none subs 0 h
  · intro ts
    simpa using fetchUsedMulti_map_some ts 0
  · intro dOk eOk st row rest
    rfl

/-- C6 witness: `[some 3, none, some 4]` fails as a whole; `[3, 4]` sums to
7; a concrete cycle whose first link failed equals the cycle without it. -/
theorem claim_C6_witness :
    fetch_used_traffic [some 3, none, some 4] = none ∧
    fetch_used_traffic ([3, 4].map some) = some ([3, 4] : List Int).sum ∧
    runCycle (fun _ => true) (fun _ => true) ⟨[(1, 0)], [], [], [], []⟩
        [(⟨1, 7, [], 0⟩, none), (⟨2, 7, [], 0⟩, some 5)] =
      runCycle (fun _ => true) (fun _ => true) ⟨[(1, 0)], [], [], [], []⟩
        [(⟨2, 7, [], 0⟩, some 5)] :=
  ⟨claim_C6.1 [some 3, none, some 4] (by simp),
   claim_C6.2.1 [3, 4],
   claim_C6.2.2 (fun _ => true) (fun _ => true) ⟨[(1, 0)], [], [], [], []⟩
     ⟨1, 7, [], 0⟩ [(⟨2, 7, [], 0⟩, some 5)]⟩

/-- The per-cycle deltas are never negative. -/
theorem deltaSum_nonneg (us : List Int) : ∀ last, 0 ≤ deltaSum last us := by
  induction us with
  | nil => intro last; simp [deltaSum]
  | cons u rest ih =>
    intro last
    have h1 := ih u
    have h2 : (0 : Int) ≤ max (u - last) 0 := le_max_right _ _
    simp only [deltaSum]
    omega

/-- Under a non-decreasing report chain the per-cycle deltas telescope to
the last report minus the initial baseline. -/
theorem deltaSum_chain (us : List Int) :
    ∀ last, List.Chain' (fun a b => a ≤ b) (last :: us) →
      deltaSum last us = (last :: us).getLast (List.cons_ne_nil _ _) - last := by
  induction us with
  | nil => intro last _; simp [deltaSum, List.getLast]
  | cons u rest ih =>
    intro last hch
    obtain ⟨hle, hch2⟩ := List.chain'_cons.mp hch
    have hrec := ih u hch2
    have hg : (last :: u :: rest).getLast (List.cons_ne_nil _ _) =
        (u :: rest).getLast (List.cons_ne_nil _ _) := rfl
    simp only [deltaSum, max_eq_left (show (0 : Int) ≤ u - last by omega), hg]
    omega

/-- Exact accumulation over N cycles: when the reports form a non-decreasing
chain from the initial baseline, the initial counters are representable, and
every intermediate sum stays within the signed BIGINT range, the final
baseline is the last report and both counters grow by exactly the delta
sum. -/
theorem runCycles_spec (us : List Int) :
    ∀ (last : Int) (lu : LocalUser) (ag : Agent),
      List.Chain' (fun a b => a ≤ b) (last :: us) →
      I64MIN ≤ lu.used_bytes → I64MIN ≤ ag.total_used_bytes →
      lu.used_bytes + deltaSum last us ≤ I64MAX →
      ag.total_used_bytes + deltaSum last us ≤ I64MAX →
      runCycles last lu ag us =
        ((last :: us).getLast (List.cons_ne_nil _ _),
         { lu with used_bytes := lu.used_bytes + deltaSum last us },
         { ag with total_used_bytes := ag.total_used_bytes + deltaSum last us }) := by
  induction us with
  | nil =>
    intro last lu ag _ _ _ _ _
    simp [runCycles, deltaSum, List.getLast]
  | cons u rest ih =>
    intro last lu ag hch hmu hma hlu hag
    obtain ⟨hle, hch2⟩ := List.chain'_cons.mp hch
    have hd0 : 0 ≤ deltaSum u rest := deltaSum_nonneg rest u
    have hds : deltaSum last (u :: rest) = (u - last) + deltaSum u rest := by
      simp only [deltaSum, max_eq_left (show (0 : Int) ≤ u - last by omega)]
    have hIU : I64MAX < U64MAX := by decide
    obtain ⟨lp, lub, lpu⟩ := lu
    obtain ⟨ap, atb, aex, aac, apu⟩ := ag
    dsimp only at hmu hma hlu hag
    by_cases hlt : last < u
    · have hcond : ¬ (lub + (u - last) < I64MIN ∨ I64MAX < lub + (u - last) ∨
          atb + (u - last) < I64MIN ∨ I64MAX < atb + (u - last)) := by omega
      have happ : applyUsage last ⟨lp, lub, lpu⟩ ⟨ap, atb, aex, aac, apu⟩ u =
          some (u, ⟨lp, lub + (u - last), lpu⟩,
            ⟨ap, atb + (u - last), aex, aac, apu⟩) := by
        simp [applyUsage, add_usage, show ¬ u < last by omega,
          show (0 : Int) < u - last by omega, show ¬ (u - last ≤ 0) by omega,
          hcond, min_eq_left (show lub + (u - last) ≤ U64MAX by omega),
          min_eq_left (show atb + (u - last) ≤ U64MAX by omega)]
      have hstep : runCycles last ⟨lp, lub, lpu⟩ ⟨ap, atb, aex, aac, apu⟩ (u :: rest) =
          runCycles u ⟨lp, lub + (u - last), lpu⟩ ⟨ap, atb + (u - last), aex, aac, apu⟩
            rest := by
        simp only [runCycles, happ]
      rw [hstep, ih u _ _ hch2 (by dsimp only; omega) (by dsimp only; omega)
        (by dsimp only; omega) (by dsimp only; omega)]
      have hg : (last :: u :: rest).getLast (List.cons_ne_nil _ _) =
          (u :: rest).getLast (List.cons_ne_nil _ _) := rfl
      simp only [hg, hds]
      simp [add_assoc]
    · have hequ : u = last := by omega
      subst hequ
      have happ : applyUsage u ⟨lp, lub, lpu⟩ ⟨ap, atb, aex, aac, apu⟩ u =
          some (u, ⟨lp, lub, lpu⟩, ⟨ap, atb, aex, aac, apu⟩) := by
        simp [applyUsage]
      have hstep : runCycles u ⟨lp, lub, lpu⟩ ⟨ap, atb, aex, aac, apu⟩ (u :: rest) =
          runCycles u ⟨lp, lub, lpu⟩ ⟨ap, atb, aex, aac, apu⟩ rest := by
        simp only [runCycles, happ]
      rw [hstep, ih u _ _ hch2 (by dsimp only; omega) (by dsimp only; omega)
        (by dsimp only; omega) (by dsimp only; omega)]
      have hg : (u :: u :: rest).getLast (List.cons_ne_nil _ _) =
          (u :: rest).getLast (List.cons_ne_nil _ _) := rfl
      simp only [hg, hds]
      simp

/-- C3 (amended): when `used > last`, the delta `used - last` is added
exactly to both counters and the baseline becomes `used`, **provided both
sums stay within the signed BIGINT range** — the `LEAST(_, 2^64-1)` written
in the SQL never clamps, because a sum beyond `2^63-1` raises the
out-of-range error instead, aborting the cycle with no update; `add_usage`
is a no-op for `delta ≤ 0`; and over N cycles of non-decreasing reports with
representable counters and every sum within the signed range, the total
increase of `used_bytes` (and of `total_used_bytes`) equals the sum of the
per-cycle deltas and the final baseline is the most recent report.  The
in-range proviso is the amendment: past `2^63-1` the program errors and
accumulates nothing (see the counterexample). -/
theorem claim_C3_amended (last : Int) (lu : LocalUser) (ag : Agent)
    (us : List Int) (h1 : us ≠ [])
    (hch : List.Chain' (fun a b => a ≤ b) (last :: us))
    (hmu : I64MIN ≤ lu.used_bytes) (hma : I64MIN ≤ ag.total_used_bytes)
    (hlu : lu.used_bytes + deltaSum last us ≤ I64MAX)
    (hag : ag.total_used_bytes + deltaSum last us ≤ I64MAX) :
    (runCycles last lu ag us).1 = us.getLast h1 ∧
    (runCycles last lu ag us).2.1.used_bytes = lu.used_bytes + deltaSum last us ∧
    (runCycles last lu ag us).2.2.total_used_bytes =
      ag.total_used_bytes + deltaSum last us ∧
    deltaSum last us = us.getLast h1 - last ∧
    (∀ (lu2 : LocalUser) (ag2 : Agent) (d : Int), d ≤ 0 →
      add_usage lu2 ag2 d = some (lu2, ag2)) ∧
    (∀ (l u : Int) (lu2 : LocalUser) (ag2 : Agent), l < u →
      I64MIN ≤ lu2.used_bytes + (u - l) → lu2.used_bytes + (u - l) ≤ I64MAX →
      I64MIN ≤ ag2.total_used_bytes + (u - l) →
      ag2.total_used_bytes + (u - l) ≤ I64MAX →
      applyUsage l lu2 ag2 u =
        some (u, { lu2 with used_bytes := lu2.used_bytes + (u - l) },
          { ag2 with
            total_used_bytes := ag2.total_used_bytes + (u - l) })) ∧
    (∀ (l u : Int) (lu2 : LocalUser) (ag2 : Agent), l < u →
      I64MAX < lu2.used_bytes + (u - l) →
      applyUsage l lu2 ag2 u = none) := by
  have hspec := runCycles_spec us last lu ag hch hmu hma hlu hag
  have htel := deltaSum_chain us last hch
  have hgl : (last :: us).getLast (List.cons_ne_nil _ _) = us.getLast h1 :=
    List.getLast_cons h1
  have hIU : I64MAX < U64MAX := by decide
  refine ⟨?_, ?_, ?_, ?_, ?_, ?_, ?_⟩
  · rw [hspec]; exact hgl
  · rw [hspec]
  · rw [hspec]
  · rw [htel, hgl]
  · intro lu2 ag2 d hd
    simp [add_usage, hd]
  · intro l u lu2 ag2 hlt hg1 hg2 hg3 hg4
    have hcond : ¬ (lu2.used_bytes + (u - l) < I64MIN ∨
        I64MAX < lu2.used_bytes + (u - l) ∨
        ag2.total_used_bytes + (u - l) < I64MIN ∨
        I64MAX < ag2.total_used_bytes + (u - l)) := by omega
    simp [applyUsage, add_usage, show ¬ u < l by omega,
      show (0 : Int) < u - l by omega, show ¬ (u - l ≤ 0) by omega, hcond,
      min_eq_left (show lu2.used_bytes + (u - l) ≤ U64MAX by omega),
      min_eq_left (show ag2.total_used_bytes + (u - l) ≤ U64MAX by omega)]
  · intro l u lu2 ag2 hlt hover
    have hcond : lu2.used_bytes + (u - l) < I64MIN ∨
        I64MAX < lu2.used_bytes + (u - l) ∨
        ag2.total_used_bytes + (u - l) < I64MIN ∨
        I64MAX < ag2.total_used_bytes + (u - l) := Or.inr (Or.inl hover)
    simp [applyUsage, add_usage, show ¬ u < l by omega,
      show (0 : Int) < u - l by omega, show ¬ (u - l ≤ 0) by omega, hcond]

/-- C3 counterexample: with `used_bytes` at the signed BIGINT maximum
`2^63-1` (a representable stored value), one cycle of non-decreasing reports
(baseline 0, report 5) makes `used_bytes + delta` overflow the signed range:
the statement errors instead of clamping at `2^64-1`, the whole update is
discarded — baseline, user and agent rows unchanged — so the increase is 0
while the delta sum is 5.  Both the claim's clamped addition and its
"increase = sum of deltas" equality are false at this input. -/
theorem claim_C3_counterexample :
    List.Chain' (fun a b => a ≤ b) [(0 : Int), 5] ∧
    deltaSum 0 [5] = 5 ∧
    add_usage ⟨0, I64MAX, false⟩ ⟨0, 0, none, true, false⟩ 5 = none ∧
    runCycles 0 ⟨0, I64MAX, false⟩ ⟨0, 0, none, true, false⟩ [5] =
      (0, ⟨0, I64MAX, false⟩, ⟨0, 0, none, true, false⟩) ∧
    ¬ ((runCycles 0 ⟨0, I64MAX, false⟩ ⟨0, 0, none, true, false⟩
          [5]).2.1.used_bytes = I64MAX + deltaSum 0 [5]) :=
  ⟨by simp, by decide, by decide, by decide, by decide⟩

/-- C3 witness: baseline 0, reports 5 then 7, counters far inside the signed
range — the used counter grows by exactly `deltaSum 0 [5, 7] = 7` and the
baseline ends at 7. -/
theorem claim_C3_amended_witness :
    (runCycles 0 ⟨1000, 800, false⟩ ⟨0, 800, none, true, false⟩ [5, 7]).1 =
      ([5, 7] : List Int).getLast (by simp) ∧
    (runCycles 0 ⟨1000, 800, false⟩ ⟨0, 800, none, true, false⟩
        [5, 7]).2.1.used_bytes = 800 + deltaSum 0 [5, 7] ∧
    (runCycles 0 ⟨1000, 800, false⟩ ⟨0, 800, none, true, false⟩
        [5, 7]).2.2.total_used_bytes = 800 + deltaSum 0 [5, 7] ∧
    deltaSum 0 [5, 7] = ([5, 7] : List Int).getLast (by simp) - 0 ∧
    (∀ (lu2 : LocalUser) (ag2 : Agent) (d : Int), d ≤ 0 →
      add_usage lu2 ag2 d = some (lu2, ag2)) ∧
    (∀ (l u : Int) (lu2 : LocalUser) (ag2 : Agent), l < u →
      I64MIN ≤ lu2.used_bytes + (u - l) → lu2.used_bytes + (u - l) ≤ I64MAX →
      I64MIN ≤ ag2.total_used_bytes + (u - l) →
      ag2.total_used_bytes + (u - l) ≤ I64MAX →
      applyUsage l lu2 ag2 u =
        some (u, { lu2 with used_bytes := lu2.used_bytes + (u - l) },
          { ag2 with
            total_used_bytes := ag2.total_used_bytes + (u - l) })) ∧
    (∀ (l u : Int) (lu2 : LocalUser) (ag2 : Agent), l < u →
      I64MAX < lu2.used_bytes + (u - l) →
      applyUsage l lu2 ag2 u = none) :=
  claim_C3_amended 0 ⟨1000, 800, false⟩ ⟨0, 800, none, true, false⟩ [5, 7]
    (by simp) (by simp) (by decide) (by decide) (by decide) (by decide)

/-- Every entry emitted by the dedupe loop is new (not in the seen set) and
passes the scheme allow-list. -/
theorem filterDedupeAux_mem (l : List (List Char)) :
    ∀ (seen : List (List Char)) (x : List Char), x ∈ filterDedupeAux seen l →
      x ∉ seen ∧ startsWithAllowed x = true := by
  induction l with
  | nil => intro seen x hx; cases hx
  | cons s rest ih =>
    intro seen x hx
    by_cases h1 : startsWithAllowed (cleanse s) = true
    · by_cases h2 : cleanse s ∈ seen
      · simp only [filterDedupeAux, h1, h2] at hx
        simp at hx
        exact ih seen x hx
      · simp only [filterDedupeAux, h1, h2] at hx
        simp at hx
        rcases hx with hx1 | hx1
        · exact ⟨hx1 ▸ h2, hx1 ▸ h1⟩
        · have := ih (cleanse s :: seen) x hx1
          exact ⟨fun hs => this.1 (List.mem_cons_of_mem _ hs), this.2⟩
    · simp only [filterDedupeAux, h1] at hx
      simp at hx
      exact ih seen x hx

/-- The dedupe loop never emits a duplicate. -/
theorem filterDedupeAux_nodup (l : List (List Char)) :
    ∀ seen : List (List Char), (filterDedupeAux seen l).Nodup := by
  induction l with
  | nil => intro seen; exact List.nodup_nil
  | cons s rest ih =>
    intro seen
    by_cases h1 : startsWithAllowed (cleanse s) = true
    · by_cases h2 : cleanse s ∈ seen
      · simp only [filterDedupeAux, h1, h2]
        simp only [if_neg, ite_true, ite_false]
        simpa using ih seen
      · simp only [filterDedupeAux, h1, h2]
        simp only [ite_true, ite_false]
        refine List.nodup_cons.mpr ⟨?_, ?_⟩
        · intro hmem
          exact (filterDedupeAux_mem rest (cleanse s :: seen) _ hmem).1
            (List.mem_cons_self _ _)
        · simpa using ih (cleanse s :: seen)
    · simp only [filterDedupeAux, h1]
      simpa using ih seen

/-- The dedupe loop emits a sublist of the cleansed input: input order is
preserved and each output entry is the cleansed form of an input entry. -/
theorem filterDedupeAux_sublist (l : List (List Char)) :
    ∀ seen : List (List Char),
      List.Sublist (filterDedupeAux seen l) (l.map cleanse) := by
  induction l with
  | nil => intro seen; simp [filterDedupeAux]
  | cons s rest ih =>
    intro seen
    by_cases h1 : startsWithAllowed (cleanse s) = true
    · by_cases h2 : cleanse s ∈ seen
      · simp only [filterDedupeAux, h1, h2, List.map_cons]
        simpa using (ih seen).cons (cleanse s)
      · simp only [filterDedupeAux, h1, h2, List.map_cons]
        simpa using (ih (cleanse s :: seen)).cons₂ (cleanse s)
    · simp only [filterDedupeAux, h1, List.map_cons]
      simpa using (ih seen).cons (cleanse s)

/-- C9: `filter_dedupe` keeps only entries whose scheme is in the allow-list,
contains no duplicate under exact string equality, preserves the first-seen
input order (it is a sublist of the cleansed input), and on the spec's
example `[A, B, A, C]` returns `[A, B, C]`. -/
theorem claim_C9 (links : List (List Char)) :
    (filter_dedupe links).Nodup ∧
    (filter_dedupe links).all (fun x => startsWithAllowed x) = true ∧
    List.Sublist (filter_dedupe links) (links.map cleanse) ∧
    filter_dedupe
        ["vless://a".data, "vmess://b".data, "vless://a".data, "trojan://c".data] =
      ["vless://a".data, "vmess://b".data, "trojan://c".data] := by
  refine ⟨filterDedupeAux_nodup links [], ?_, filterDedupeAux_sublist links [],
    by decide⟩
  rw [List.all_eq_true]
  intro x hx
  exact (filterDedupeAux_mem links [] x hx).2

/-- Percent-decoding is the identity on a string without a percent sign. -/
theorem unquoteAux_eq_self (fuel : Nat) :
    ∀ s : List Char, s.length ≤ fuel → '%' ∉ s → unquoteAux fuel s = s := by
  induction fuel with
  | zero => intro s _ _; rfl
  | succ fuel ih =>
    intro s hlen hmem
    cases s with
    | nil => rfl
    | cons c rest =>
      have hc : ¬ c = '%' := fun h => hmem (h ▸ List.mem_cons_self c rest)
      have hrest : '%' ∉ rest := fun h => hmem (List.mem_cons_of_mem c h)
      have hlen2 : rest.length ≤ fuel := by simp at hlen; omega
      simp only [unquoteAux, if_neg hc]
      rw [ih rest hlen2 hrest]

/-- `unquote` is the identity on a string without a percent sign. -/
theorem unquote_eq_self (s : List Char) (h : '%' ∉ s) : unquote s = s :=
  unquoteAux_eq_self s.length s le_rfl h

/-- The head of a `dropWhile` result does not satisfy the dropped
predicate. -/
theorem head_dropWhile_not (p : Char → Bool) (s : List Char) :
    ∀ b, (s.dropWhile p).head? = some b → p b = false := by
  induction s with
  | nil => intro b h; simp at h
  | cons c rest ih =>
    intro b h
    rw [List.dropWhile_cons] at h
    by_cases hc : p c = true
    · rw [if_pos hc] at h
      exact ih b h
    · rw [if_neg hc] at h
      simp at h
      rw [← h]
      exact Bool.eq_false_iff.mpr hc

/-- Whitespace-normality passes to contiguous substrings. -/
theorem wsNormal_within {s t : List Char} (hinf : t.IsInfix s) (h : WsNormal s) :
    WsNormal t :=
  ⟨fun c hc hsp => h.1 c (hinf.subset hc) hsp, List.Chain'.infix h.2 hinf⟩

/-- Stripping both ends yields a contiguous substring. -/
theorem pyStrip_within (p : Char → Bool) (s : List Char) : (pyStrip p s).IsInfix s := by
  have h1 : (s.dropWhile p).IsSuffix s := List.dropWhile_suffix p
  have h2 : ((s.dropWhile p).reverse.dropWhile p).IsSuffix (s.dropWhile p).reverse :=
    List.dropWhile_suffix p
  have h2x : (((s.dropWhile p).reverse.dropWhile p).reverse).reverse.IsSuffix
      (s.dropWhile p).reverse := by simpa using h2
  have h3 : (((s.dropWhile p).reverse.dropWhile p).reverse).IsPrefix (s.dropWhile p) :=
    List.reverse_suffix.mp h2x
  exact h3.isInfix.trans h1.isInfix

/-- The head of a `collapseWsAux` result is non-whitespace whenever the head
of its input is. -/
theorem collapseWsAux_head (fuel : Nat) (s : List Char)
    (hhd : ∀ b, s.head? = some b → pyIsSpace b = false) :
    ∀ b, (collapseWsAux fuel s).head? = some b → pyIsSpace b = false := by
  cases fuel with
  | zero => exact hhd
  | succ fuel =>
    cases s with
    | nil => intro b h; simp [collapseWsAux] at h
    | cons c rest =>
      have hc : pyIsSpace c = false := hhd c rfl
      intro b h
      simp only [collapseWsAux, hc] at h
      simp at h
      rw [← h]
      exact hc

/-- The output of the whitespace collapse is whitespace-normal. -/
theorem collapseWsAux_wsNormal (fuel : Nat) :
    ∀ s : List Char, s.length ≤ fuel → WsNormal (collapseWsAux fuel s) := by
  induction fuel with
  | zero =>
    intro s hlen
    have : s = [] := List.length_eq_zero.mp (Nat.le_zero.mp hlen)
    subst this
    exact ⟨fun c hc => absurd hc (List.not_mem_nil c), List.chain'_nil⟩
  | succ fuel ih =>
    intro s hlen
    cases s with
    | nil => exact ⟨by simp [collapseWsAux], by simp [collapseWsAux]⟩
    | cons c rest =>
      have hlen1 : rest.length ≤ fuel := by simp at hlen; omega
      by_cases hc : pyIsSpace c = true
      · have hlen2 : (rest.dropWhile pyIsSpace).length ≤ fuel :=
          le_trans (List.dropWhile_suffix pyIsSpace).sublist.length_le hlen1
        have ihs := ih (rest.dropWhile pyIsSpace) hlen2
        have hhd : ∀ b, (collapseWsAux fuel (rest.dropWhile pyIsSpace)).head? = some b →
            pyIsSpace b = false :=
          collapseWsAux_head fuel _ (head_dropWhile_not pyIsSpace rest)
        refine ⟨?_, ?_⟩
        · intro x hx hsp
          simp only [collapseWsAux, hc, ite_true] at hx
          rcases List.mem_cons.mp hx with hx1 | hx1
          · exact hx1
          · exact ihs.1 x hx1 hsp
        · simp only [collapseWsAux, hc, ite_true]
          refine List.chain'_cons'.mpr ⟨?_, ihs.2⟩
          intro y hy _
          exact hhd y (by simpa using hy)
      · have ihs := ih rest hlen1
        refine ⟨?_, ?_⟩
        · intro x hx hsp
          simp only [collapseWsAux, hc, ite_false] at hx
          rcases List.mem_cons.mp hx with hx1 | hx1
          · exact absurd (hx1 ▸ hsp) (by simpa using hc)
          · exact ihs.1 x hx1 hsp
        · simp only [collapseWsAux, hc, ite_false]
          refine List.chain'_cons'.mpr ⟨?_, ihs.2⟩
          intro y _ hsp
          exact absurd hsp (by simpa using hc)

/-- The whitespace collapse fixes every whitespace-normal string. -/
theorem collapseWsAux_fix (fuel : Nat) :
    ∀ s : List Char, s.length ≤ fuel → WsNormal s → collapseWsAux fuel s = s := by
  induction fuel with
  | zero => intro s _ _; rfl
  | succ fuel ih =>
    intro s hlen hws
    cases s with
    | nil => rfl
    | cons c rest =>
      have hlen1 : rest.length ≤ fuel := by simp at hlen; omega
      have hwsr : WsNormal rest := ⟨fun x hx => hws.1 x (List.mem_cons_of_mem c hx),
        hws.2.tail⟩
      by_cases hc : pyIsSpace c = true
      · have hcsp : c = ' ' := hws.1 c (List.mem_cons_self c rest) hc
        have hrest : rest.dropWhile pyIsSpace = rest := by
          cases rest with
          | nil => rfl
          | cons d r2 =>
            have hd : pyIsSpace d = false := by
              have := (List.chain'_cons.mp hws.2).1 hc
              simpa using this
            simp [List.dropWhile_cons, hd]
        rw [show collapseWsAux (fuel + 1) (c :: rest) =
            ' ' :: collapseWsAux fuel (rest.dropWhile pyIsSpace) from by
          simp [collapseWsAux, hc], hrest, ih rest hlen1 hwsr, hcsp]
      · rw [show collapseWsAux (fuel + 1) (c :: rest) =
            c :: collapseWsAux fuel rest from by
          simp [collapseWsAux, hc], ih rest hlen1 hwsr]

/-- The whole-string collapse always yields a whitespace-normal string. -/
theorem collapseWs_wsNormal (s : List Char) : WsNormal (collapseWs s) :=
  collapseWsAux_wsNormal s.length s le_rfl

/-- The whole-string collapse fixes whitespace-normal strings. -/
theorem collapseWs_fix (s : List Char) (h : WsNormal s) : collapseWs s = s :=
  collapseWsAux_fix s.length s le_rfl h

/-- The canonical form of any name is whitespace-normal: the last three
stages are collapse, strip, truncate, and the last two preserve normality. -/
theorem canonicalize_wsNormal (x : List Char) : WsNormal (canonicalize_name x) := by
  have hshape : canonicalize_name x =
      (pyStrip pyIsSpace (collapseWs (subParen (subOwnerTag (subTraffic
        (pyStrip pyIsSpace (unquote x))))))).take 255 := rfl
  have hinf : ((pyStrip pyIsSpace (collapseWs (subParen (subOwnerTag (subTraffic
      (pyStrip pyIsSpace (unquote x))))))).take 255).IsInfix
      (collapseWs (subParen (subOwnerTag (subTraffic
        (pyStrip pyIsSpace (unquote x)))))) :=
    ((List.take_prefix _ _).isInfix).trans (pyStrip_within _ _)
  rw [hshape]
  exact wsNormal_within hinf (collapseWs_wsNormal _)

/-- The canonical form of any name has at most 255 characters. -/
theorem canonicalize_length_le (x : List Char) :
    (canonicalize_name x).length ≤ 255 := by
  have hshape : canonicalize_name x =
      (pyStrip pyIsSpace (collapseWs (subParen (subOwnerTag (subTraffic
        (pyStrip pyIsSpace (unquote x))))))).take 255 := rfl
  rw [hshape, List.length_take]
  exact min_le_left _ _

/-- C8 (amended): `canonicalize_name` is idempotent on every input whose
canonical form contains no percent sign, is unchanged by each of the three
stripping substitutions, and carries no leading or trailing whitespace (all
of which hold for typical config names).  Unconditional idempotence is false:
re-canonicalizing percent-decodes a second time (see the counterexample). -/
theorem claim_C8_amended (x : List Char)
    (h1 : '%' ∉ canonicalize_name x)
    (h2 : subTraffic (canonicalize_name x) = canonicalize_name x)
    (h3 : subOwnerTag (canonicalize_name x) = canonicalize_name x)
    (h4 : subParen (canonicalize_name x) = canonicalize_name x)
    (h5 : pyStrip pyIsSpace (canonicalize_name x) = canonicalize_name x) :
    canonicalize_name (canonicalize_name x) = canonicalize_name x := by
  have hy : canonicalize_name (canonicalize_name x) =
      (pyStrip pyIsSpace (collapseWs (subParen (subOwnerTag (subTraffic
        (pyStrip pyIsSpace (unquote (canonicalize_name x)))))))).take 255 := rfl
  rw [hy, unquote_eq_self _ h1, h5, h2, h3, h4]
  rw [collapseWs_fix _ (canonicalize_wsNormal x), h5]
  exact List.take_of_length_le (canonicalize_length_le x)

/-- C8 counterexample: `canonicalize_name` is not idempotent as claimed —
the input `"%2541"` canonicalizes to `"%41"`, which canonicalizes again to
`"A"`, because the percent-decode stage runs a second time. -/
theorem claim_C8_counterexample :
    canonicalize_name (canonicalize_name "%2541".data) ≠
        canonicalize_name "%2541".data ∧
    canonicalize_name "%2541".data = "%41".data ∧
    canonicalize_name "%41".data = "A".data := by
  refine ⟨by decide, by decide, by decide⟩

/-- C8 witness: the amended idempotence at the concrete name `"Server 1"`,
whose canonical form has no percent sign, no substitution match and no edge
whitespace. -/
theorem claim_C8_amended_witness :
    canonicalize_name (canonicalize_name "Server 1".data) =
      canonicalize_name "Server 1".data :=
  claim_C8_amended "Server 1".data (by decide) (by decide) (by decide)
    (by decide) (by decide)

end Valhalla
